import Mathlib

/-!
# Verification of the talk2folder ingestion and retrieval core

Shallow embedding, in Lean 4, of the pure/decidable core of the
`talk2folder` backend (`backend/app/services/ingestion.py`,
`gemini_service.py`, `vector_store.py`, `google_drive.py`,
`backend/app/agent/hybrid_agent.py`), together with theorems settling the
spec's claims about it.

Python strings are modelled as `List Char`, Python ints as `Int` or `Nat`
where the value is provably non-negative, float ratios as `ℚ` (exact for
the magnitudes involved), effectful collaborators (Drive, Gemini, Chroma)
as explicit oracle parameters, and fallible or possibly diverging code as
`Option`-returning functions (a while-loop becomes a fuel-indexed loop
returning `none` when the fuel runs out).
-/

namespace Talk2Folder

/-! ## Chunker (`ingestion.py`, `chunk_text`)

The Python source:

```
def chunk_text(text, chunk_size=1000, overlap=200):
    if len(text) <= chunk_size:
        return [text]
    chunks = []
    start = 0
    while start < len(text):
        end = start + chunk_size
        chunk = text[start:end]
        chunks.append(chunk)
        start = end - overlap
    return chunks
```

The while-loop is embedded as a fuel-indexed recursion: `none` means the
fuel ran out (with unbounded fuel, the loop has not terminated).
`text[start:end]` with `0 ≤ start` is `(text.drop start).take (end - start)`.
-/

def CHUNK_SIZE : Nat := 1000
def CHUNK_OVERLAP : Nat := 200

/-- One iteration of the `while start < len(text)` loop of `chunk_text`,
with explicit fuel.  `start = end - overlap` is Nat-truncated subtraction;
for `overlap < chunk_size` (the only regime in which the loop terminates)
it agrees with Python's integer arithmetic, and for `overlap ≥ chunk_size`
both the Python loop and this model keep the start position from ever
passing the end of the text. -/
def chunkLoop (text : List Char) (chunk_size overlap : Nat) :
    Nat → Nat → Option (List (List Char))
  | 0, _ => none
  | fuel + 1, start =>
    if start < text.length then
      match chunkLoop text chunk_size overlap fuel (start + chunk_size - overlap) with
      | none => none
      | some rest => some (((text.drop start).take chunk_size) :: rest)
    else
      some []

/-- `chunk_text`: the fuel `text.length + 1` dominates the iteration count
whenever the loop terminates at all (the start position strictly increases
by at least one per iteration when `overlap < chunk_size`). -/
def chunk_text (text : List Char) (chunk_size overlap : Nat) :
    Option (List (List Char)) :=
  if text.length ≤ chunk_size then
    some [text]
  else
    chunkLoop text chunk_size overlap (text.length + 1) 0

/-- Closed form of the chunk list produced by a terminating run of the
loop: the `k`-th chunk is the window of width `chunk_size` starting at
offset `k * (chunk_size - overlap)`, truncated at the end of the text. -/
def chunkSpec (text : List Char) (chunk_size overlap : Nat) : List (List Char) :=
  (List.range ((text.length + (chunk_size - overlap) - 1) / (chunk_size - overlap))).map
    (fun k => (text.drop (k * (chunk_size - overlap))).take chunk_size)

/-- Reconstruction reading of a chunk list: the first chunk whole, every
later chunk with its leading `overlap` characters removed. -/
def reconstruct (chunks : List (List Char)) (overlap : Nat) : List Char :=
  match chunks with
  | [] => []
  | c :: rest => c ++ (rest.map (fun d => d.drop overlap)).flatten

/-- The tail part of `reconstruct`: every chunk with its leading
`overlap` characters removed, concatenated. -/
def tailJoin (chunks : List (List Char)) (overlap : Nat) : List Char :=
  (chunks.map (fun d => d.drop overlap)).flatten

lemma chunkLoop_eq_of_fuel (text : List Char) (cs ov : Nat) (hov : ov < cs) :
    ∀ fuel start, text.length < start + fuel → 0 < fuel →
      chunkLoop text cs ov fuel start =
        some ((List.range ((text.length - start + (cs - ov) - 1) / (cs - ov))).map
          (fun k => (text.drop (start + k * (cs - ov))).take cs)) := by
  intro fuel
  induction fuel with
  | zero =>
    intro start h hpos
    omega
  | succ n ih =>
    intro start h _
    simp only [chunkLoop]
    by_cases hlt : start < text.length
    · rw [if_pos hlt]
      have hrec := ih (start + cs - ov) (by omega) (by omega)
      rw [hrec]
      have hs : 0 < cs - ov := by omega
      have hstep : start + cs - ov = start + (cs - ov) := by omega
      rw [hstep]
      have hcount :
          (text.length - start + (cs - ov) - 1) / (cs - ov) =
            (text.length - (start + (cs - ov)) + (cs - ov) - 1) / (cs - ov) + 1 := by
        rcases Nat.lt_or_ge text.length (start + (cs - ov)) with hsmall | hbig
        · have ha : text.length - (start + (cs - ov)) + (cs - ov) - 1 < cs - ov := by
            omega
          have hb : (text.length - (start + (cs - ov)) + (cs - ov) - 1) / (cs - ov) = 0 :=
            Nat.div_eq_of_lt ha
          have hc : (text.length - start + (cs - ov) - 1) / (cs - ov) = 1 :=
            Nat.div_eq_of_lt_le (by omega) (by omega)
          omega
        · have h1 : text.length - start + (cs - ov) - 1 =
              (text.length - (start + (cs - ov)) + (cs - ov) - 1) + (cs - ov) := by
            omega
          rw [h1, Nat.add_div_right _ hs]
      rw [hcount, List.range_succ_eq_map, List.map_cons, List.map_map]
      refine congrArg some ?_
      refine List.cons_eq_cons.mpr ⟨?_, ?_⟩
      · simp
      · refine List.map_congr_left ?_
        intro k _
        simp only [Function.comp_apply, Nat.succ_eq_add_one]
        have hidx : start + (cs - ov) + k * (cs - ov) = start + (k + 1) * (cs - ov) := by
          ring
        rw [hidx]
    · rw [if_neg hlt]
      have h0 : text.length - start = 0 := by omega
      have h2 : (text.length - start + (cs - ov) - 1) / (cs - ov) = 0 :=
        Nat.div_eq_of_lt (by omega)
      rw [h2]
      simp

lemma chunk_text_eq_chunkSpec (text : List Char) (cs ov : Nat) (hov : ov < cs)
    (hlen : cs < text.length) :
    chunk_text text cs ov = some (chunkSpec text cs ov) := by
  unfold chunk_text chunkSpec
  rw [if_neg (by omega)]
  rw [chunkLoop_eq_of_fuel text cs ov hov (text.length + 1) 0 (by omega) (by omega)]
  congr 1
  simp only [Nat.sub_zero, Nat.zero_add]

lemma tailJoin_window (text : List Char) (cs ov : Nat) (_hov : ov < cs) :
    ∀ n start, text.length ≤ start + n * (cs - ov) →
      tailJoin ((List.range n).map
          (fun k => (text.drop (start + k * (cs - ov))).take cs)) ov =
        text.drop (start + ov) := by
  intro n
  induction n with
  | zero =>
    intro start h
    simp only [List.range_zero, List.map_nil, tailJoin, List.flatten_nil]
    rw [List.drop_eq_nil_of_le (by omega)]
  | succ m ih =>
    intro start h
    rw [List.range_succ_eq_map, List.map_cons, List.map_map]
    simp only [tailJoin, List.map_cons, List.flatten_cons, List.map_map]
    have hhead : ((text.drop (start + 0 * (cs - ov))).take cs).drop ov =
        (text.drop (start + ov)).take (cs - ov) := by
      rw [Nat.zero_mul, Nat.add_zero, List.drop_take, List.drop_drop]
    have htail := ih (start + (cs - ov)) (by
      have : start + (cs - ov) + m * (cs - ov) = start + (m + 1) * (cs - ov) := by ring
      omega)
    simp only [tailJoin, List.map_map] at htail
    have hfun : (List.range m).map
          ((fun d => d.drop ov) ∘
            ((fun k => (text.drop (start + k * (cs - ov))).take cs) ∘ Nat.succ)) =
        (List.range m).map
          ((fun d => d.drop ov) ∘
            (fun k => (text.drop (start + (cs - ov) + k * (cs - ov))).take cs)) := by
      apply List.map_congr_left
      intro k _
      simp only [Function.comp_apply, Nat.succ_eq_add_one]
      have hidx : start + (k + 1) * (cs - ov) = start + (cs - ov) + k * (cs - ov) := by
        ring
      rw [hidx]
    rw [hhead, hfun, htail]
    have hrest : text.drop (start + (cs - ov) + ov) =
        (text.drop (start + ov)).drop (cs - ov) := by
      rw [List.drop_drop]
      congr 1
      omega
    rw [hrest, List.take_append_drop]

lemma reconstruct_chunkSpec (text : List Char) (cs ov : Nat) (hov : ov < cs)
    (hlen : cs < text.length) :
    reconstruct (chunkSpec text cs ov) ov = text := by
  have hs : 0 < cs - ov := by omega
  set N := (text.length + (cs - ov) - 1) / (cs - ov) with hN
  have hNpos : 0 < N := by
    rw [hN]
    exact Nat.div_pos (by omega) hs
  have hcover : text.length ≤ N * (cs - ov) := by
    have h1 : (cs - ov) * N + (text.length + (cs - ov) - 1) % (cs - ov) =
        text.length + (cs - ov) - 1 := by
      rw [hN]
      exact Nat.div_add_mod _ _
    have h2 : (text.length + (cs - ov) - 1) % (cs - ov) < cs - ov :=
      Nat.mod_lt _ hs
    have h3 : N * (cs - ov) = (cs - ov) * N := Nat.mul_comm _ _
    omega
  obtain ⟨M, hM⟩ : ∃ M, N = M + 1 := ⟨N - 1, by omega⟩
  rw [hM] at hcover
  unfold chunkSpec
  rw [← hN, hM, List.range_succ_eq_map, List.map_cons, List.map_map]
  simp only [reconstruct]
  have hfun : (List.range M).map
        ((fun k => (text.drop (k * (cs - ov))).take cs) ∘ Nat.succ) =
      (List.range M).map
        (fun k => (text.drop ((cs - ov) + k * (cs - ov))).take cs) := by
    apply List.map_congr_left
    intro k _
    simp only [Function.comp_apply, Nat.succ_eq_add_one]
    have hidx : (k + 1) * (cs - ov) = (cs - ov) + k * (cs - ov) := by ring
    rw [hidx]
  rw [hfun]
  have htail := tailJoin_window text cs ov hov M (cs - ov) (by
    have hbr : (cs - ov) + M * (cs - ov) = (M + 1) * (cs - ov) := by ring
    omega)
  simp only [tailJoin] at htail
  rw [htail]
  have hcs : cs - ov + ov = cs := by omega
  rw [hcs]
  simp only [Nat.zero_mul, List.drop_zero]
  exact List.take_append_drop cs text

lemma chunkLoop_none_of_overlap_ge (text : List Char) (cs ov : Nat) (hov : cs ≤ ov) :
    ∀ fuel start, start < text.length → chunkLoop text cs ov fuel start = none := by
  intro fuel
  induction fuel with
  | zero => intro start _; rfl
  | succ n ih =>
    intro start h
    simp only [chunkLoop, if_pos h]
    rw [ih (start + cs - ov) (by omega)]

/-- **C1.** Amended chunker characterization, for `overlap < chunk_size`:
if `len(text) ≤ chunk_size` the result is `[text]`; otherwise the loop
terminates and produces exactly `⌈len(text) / (chunk_size − overlap)⌉`
chunks, the `k`-th being the window of width `chunk_size` at offset
`k·(chunk_size − overlap)` truncated at the end of the text (so a chunk
other than the last may be shorter than the window when it overruns the
end), and concatenating the first chunk with every later chunk stripped
of its leading `overlap` characters reconstructs the text.  The claim's
original chunk count `⌈(len(text)−overlap)/(chunk_size−overlap)⌉` and its
"every chunk except the last has length exactly `chunk_size`" are
refuted by `chunker_claim_counterexample`. -/
theorem chunker_characterization (text : List Char) (cs ov : Nat) (hov : ov < cs) :
    (text.length ≤ cs → chunk_text text cs ov = some [text]) ∧
    (cs < text.length →
      chunk_text text cs ov = some (chunkSpec text cs ov) ∧
      (chunkSpec text cs ov).length = (text.length + (cs - ov) - 1) / (cs - ov) ∧
      reconstruct (chunkSpec text cs ov) ov = text) := by
  constructor
  · intro hle
    unfold chunk_text
    rw [if_pos hle]
  · intro hlt
    refine ⟨chunk_text_eq_chunkSpec text cs ov hov hlt, ?_, ?_⟩
    · unfold chunkSpec
      simp
    · exact reconstruct_chunkSpec text cs ov hov hlt

/-- **C1** witness: the characterization instantiated on the 12-character
text `"hello world!"` with window 4 and overlap 2. -/
theorem chunker_characterization_witness :
    chunk_text ("hello world!".toList) 4 2 = some (chunkSpec ("hello world!".toList) 4 2) ∧
    (chunkSpec ("hello world!".toList) 4 2).length =
      (("hello world!".toList).length + (4 - 2) - 1) / (4 - 2) ∧
    reconstruct (chunkSpec ("hello world!".toList) 4 2) 2 = "hello world!".toList :=
  (chunker_characterization ("hello world!".toList) 4 2 (by decide)).2 (by decide)

/-- **C1** counterexample: on the 9-character text `"abcdefghi"` with
window 4 and overlap 2 the code produces 5 chunks of lengths
`[4, 4, 4, 3, 1]`, while the claim predicts
`⌈(9−2)/(4−2)⌉ = 4` chunks all of length 4 except the last. -/
theorem chunker_claim_counterexample :
    (chunk_text ("abcdefghi".toList) 4 2).map List.length = some 5 ∧
    (("abcdefghi".toList).length - 2 + (4 - 2) - 1) / (4 - 2) = 4 ∧
    ((chunk_text ("abcdefghi".toList) 4 2).getD []).map List.length = [4, 4, 4, 3, 1] := by
  refine ⟨?_, by decide, ?_⟩ <;> rfl

/-- **C9.** `chunk_text` terminates for every text when
`overlap < chunk_size` (the bundled fuel suffices, so the result is
`some`), but for every text strictly longer than `chunk_size` and every
`overlap ≥ chunk_size` the sliding loop never finishes: it exhausts any
amount of fuel, because the start position never advances past the
text. -/
theorem chunker_termination_dichotomy :
    (∀ (text : List Char) (cs ov : Nat), ov < cs →
      (chunk_text text cs ov).isSome = true) ∧
    (∀ (text : List Char) (cs ov : Nat), cs < text.length → cs ≤ ov →
      ∀ fuel, chunkLoop text cs ov fuel 0 = none) := by
  constructor
  · intro text cs ov hov
    unfold chunk_text
    by_cases hle : text.length ≤ cs
    · rw [if_pos hle]
      rfl
    · rw [if_neg hle]
      rw [chunkLoop_eq_of_fuel text cs ov hov (text.length + 1) 0 (by omega) (by omega)]
      rfl
  · intro text cs ov hlen hov fuel
    exact chunkLoop_none_of_overlap_ge text cs ov hov fuel 0 (by omega)

/-- **C9** witness: with overlap 2 < window 4 the chunker yields a result
on `"abcdefgh"`; with overlap 3 ≥ window 2 on the 5-character `"vwxyz"`
the loop returns `none` for the concrete fuel 7. -/
theorem chunker_termination_witness :
    (chunk_text ("abcdefgh".toList) 4 2).isSome = true ∧
    chunkLoop ("vwxyz".toList) 2 3 7 0 = none :=
  ⟨chunker_termination_dichotomy.1 ("abcdefgh".toList) 4 2 (by decide),
   chunker_termination_dichotomy.2 ("vwxyz".toList) 2 3 (by decide) (by decide) 7⟩

/-! ## Path selector and fast-path uploader (`gemini_service.py`)

```
MAX_FILE_SIZE_BYTES = 10 * 1024 * 1024
MAX_TOTAL_SIZE_BYTES = 100 * 1024 * 1024
MAX_FILES_FOR_FAST_PATH = 50

def _get_file_size(f):
    size = f.get("size", 0)
    if size is None: return 0
    try: return int(size)
    except (ValueError, TypeError): return 0

def should_use_fast_path(files):
    if len(files) > MAX_FILES_FOR_FAST_PATH: return False
    total_size = sum(_get_file_size(f) for f in files)
    if total_size > MAX_TOTAL_SIZE_BYTES: return False
    for f in files:
        if _get_file_size(f) > MAX_FILE_SIZE_BYTES: return False
    return True
```
-/

def MAX_FILE_SIZE_BYTES : Int := 10 * 1024 * 1024
def MAX_TOTAL_SIZE_BYTES : Int := 100 * 1024 * 1024
def MAX_FILES_FOR_FAST_PATH : Nat := 50

/-- Shapes the `size` field of a Drive file record can take: absent,
JSON null (Python `None`), an integer, or a string (the Drive API
returns sizes as decimal strings). -/
inductive SizeField
  | missing
  | null
  | int (n : Int)
  | str (s : String)
deriving DecidableEq

/-- A Drive file record as consumed by the ingestion pipeline
(`id`, `name`, `path`, `mimeType`, `size`). -/
structure DriveFile where
  id : String
  name : String
  path : String
  mimeType : String
  size : SizeField
deriving DecidableEq

/-- Python `int(s)` on a string: optional sign followed by at least one
decimal digit; a parse failure (`ValueError`) is `none`.  (Python also
strips whitespace and accepts underscore separators; Drive size payloads
contain neither, so those cases are not modelled.) -/
def pyIntOfString (s : String) : Option Int :=
  let parse : Int → List Char → Option Int := fun sign digits =>
    if digits.isEmpty ∨ ¬ digits.all Char.isDigit then
      none
    else
      some (sign * digits.foldl (fun acc c => acc * 10 + ((c.toNat - '0'.toNat : Nat) : Int)) 0)
  match s.toList with
  | '-' :: rest => parse (-1) rest
  | '+' :: rest => parse 1 rest
  | rest => parse 1 rest

/-- `_get_file_size`: `f.get("size", 0)`; `None` becomes 0; then `int(size)`
with `ValueError`/`TypeError` mapped to 0. -/
def _get_file_size (f : DriveFile) : Int :=
  match f.size with
  | .missing => 0
  | .null => 0
  | .int n => n
  | .str s => (pyIntOfString s).getD 0

/-- `should_use_fast_path`, translated clause for clause. -/
def should_use_fast_path (files : List DriveFile) : Bool :=
  if files.length > MAX_FILES_FOR_FAST_PATH then
    false
  else
    let total_size := (files.map _get_file_size).sum
    if total_size > MAX_TOTAL_SIZE_BYTES then
      false
    else if files.any (fun f => _get_file_size f > MAX_FILE_SIZE_BYTES) then
      false
    else
      true

/-- Raw downloaded bytes. -/
abbrev Content : Type := List Nat

/-- One entry of the list returned by `upload_files_to_gemini`: the file
metadata echoed back, plus `gemini_uri` (`None` when the upload failed). -/
structure GeminiFileInfo where
  id : String
  name : String
  path : String
  mime_type : String
  gemini_uri : Option String
deriving DecidableEq

/-- `upload_files_to_gemini`: entries whose content is `None` are skipped
(never attempted); every attempted file yields exactly one result dict
whose `gemini_uri` is the upload outcome.  The per-file upload itself
(office conversion, temp file, retries, exceptions caught by the inner
`except`) is the effectful oracle `upload`. -/
def upload_files_to_gemini (upload : DriveFile → Option String)
    (files_with_content : List (DriveFile × Option Content)) : List GeminiFileInfo :=
  (files_with_content.filterMap
      (fun fc => match fc.2 with
        | none => none
        | some _ => some fc.1)).map
    (fun f =>
      { id := f.id, name := f.name, path := f.path,
        mime_type := f.mimeType, gemini_uri := upload f })

/-- A 50-element file list containing one file of exactly 10MB (and 49
empty files): both boundary values of the fast-path ceilings at once. -/
def boundaryFiles : List DriveFile :=
  List.replicate 49
      { id := "s", name := "s.txt", path := "s.txt", mimeType := "text/plain",
        size := SizeField.int 0 } ++
    [{ id := "b", name := "b.pdf", path := "b.pdf", mimeType := "application/pdf",
       size := SizeField.int (10 * 1024 * 1024) }]

/-- **C2.** `should_use_fast_path` returns `True` iff the file count is
at most 50, the aggregate size is at most 100MB, and no single file
exceeds 10MB; in particular it returns `True` on a boundary list of
exactly 50 files one of which is exactly 10MB. -/
theorem fast_path_selector_iff :
    (∀ files : List DriveFile,
      should_use_fast_path files = true ↔
        (files.length ≤ MAX_FILES_FOR_FAST_PATH ∧
         (files.map _get_file_size).sum ≤ MAX_TOTAL_SIZE_BYTES ∧
         ∀ f ∈ files, _get_file_size f ≤ MAX_FILE_SIZE_BYTES)) ∧
    should_use_fast_path boundaryFiles = true := by
  constructor
  · intro files
    unfold should_use_fast_path
    by_cases h1 : files.length > MAX_FILES_FOR_FAST_PATH
    · simp only [if_pos h1, Bool.false_eq_true, false_iff]
      intro hc
      omega
    · rw [if_neg h1]
      by_cases h2 : (files.map _get_file_size).sum > MAX_TOTAL_SIZE_BYTES
      · simp only [if_pos h2, Bool.false_eq_true, false_iff]
        intro hc
        exact absurd hc.2.1 (not_le.mpr h2)
      · rw [if_neg h2]
        cases hany : files.any (fun f => _get_file_size f > MAX_FILE_SIZE_BYTES) with
        | true =>
          rw [if_pos rfl]
          simp only [Bool.false_eq_true, false_iff]
          intro hc
          obtain ⟨f, hf, hgt⟩ := List.any_eq_true.mp hany
          simp only [decide_eq_true_eq] at hgt
          exact absurd (hc.2.2 f hf) (not_le.mpr hgt)
        | false =>
          rw [if_neg Bool.false_ne_true]
          simp only [true_iff]
          refine ⟨by omega, not_lt.mp h2, ?_⟩
          intro f hf
          by_contra hgt
          have hc : files.any (fun f => _get_file_size f > MAX_FILE_SIZE_BYTES) = true :=
            List.any_eq_true.mpr ⟨f, hf, by simp only [decide_eq_true_eq]; omega⟩
          rw [hany] at hc
          exact Bool.false_ne_true hc
  · decide

/-- A file whose `size` field is a non-numeric string. -/
def unparseableFile : DriveFile :=
  { id := "x", name := "x.bin", path := "x.bin", mimeType := "application/pdf",
    size := SizeField.str "n/a" }

/-- A small ordinary file. -/
def tinyTextFile : DriveFile :=
  { id := "t", name := "t.txt", path := "t.txt", mimeType := "text/plain",
    size := SizeField.int 64 }

/-- The size field is absent, `None`, or an unparseable string. -/
def degenerateSize : SizeField → Prop := fun s =>
  s = SizeField.missing ∨ s = SizeField.null ∨
    ∃ raw, s = SizeField.str raw ∧ pyIntOfString raw = none

/-- **C10.** A file whose size field is missing, `None`, or unparseable
contributes 0 to every size computation of `should_use_fast_path`: its
`_get_file_size` is 0, so the fast-path decision on a list containing it
degenerates to the count check (with the file counted) plus the size
checks over the remaining files — such a file can never by itself
disqualify the fast path on per-file or aggregate size grounds. -/
theorem degenerate_size_never_disqualifies (f : DriveFile) (rest : List DriveFile)
    (hbad : degenerateSize f.size) :
    _get_file_size f = 0 ∧
    (should_use_fast_path (f :: rest) = true ↔
      (rest.length + 1 ≤ MAX_FILES_FOR_FAST_PATH ∧
       (rest.map _get_file_size).sum ≤ MAX_TOTAL_SIZE_BYTES ∧
       ∀ g ∈ rest, _get_file_size g ≤ MAX_FILE_SIZE_BYTES)) := by
  have hzero : _get_file_size f = 0 := by
    rcases hbad with h | h | ⟨raw, hraw, hparse⟩
    · simp [_get_file_size, h]
    · simp [_get_file_size, h]
    · simp [_get_file_size, hraw, hparse]
  refine ⟨hzero, ?_⟩
  rw [fast_path_selector_iff.1 (f :: rest)]
  constructor
  · rintro ⟨hlen, hsum, hall⟩
    refine ⟨by simpa using hlen, ?_, fun g hg => hall g (List.mem_cons_of_mem f hg)⟩
    simpa [hzero] using hsum
  · rintro ⟨hlen, hsum, hall⟩
    refine ⟨by simpa using hlen, by simpa [hzero] using hsum, ?_⟩
    intro g hg
    rcases List.mem_cons.mp hg with hg | hg
    · rw [hg, hzero]
      decide
    · exact hall g hg

/-- **C10** witness: the concrete file with size string `"n/a"` has size
0, and a two-file list made of it and a 64-byte file passes the fast-path
check. -/
theorem degenerate_size_witness :
    _get_file_size unparseableFile = 0 ∧
    should_use_fast_path [unparseableFile, tinyTextFile] = true := by
  have h := degenerate_size_never_disqualifies unparseableFile [tinyTextFile]
    (Or.inr (Or.inr ⟨"n/a", rfl, by decide⟩))
  exact ⟨h.1, h.2.mpr (by refine ⟨by decide, by decide, by decide⟩)⟩

/-! ## Folder ingestion (`ingestion.py`, `ingest_folder`) -/

inductive FolderStatus
  | PENDING
  | INDEXING
  | READY
  | FAILED
deriving DecidableEq

inductive IndexMode
  | gemini_files
  | chroma
deriving DecidableEq

/-- The Folder fields `ingest_folder` writes. -/
structure FolderRecord where
  status : FolderStatus
  index_mode : Option IndexMode
  file_count : Nat
  gemini_files : Option (List GeminiFileInfo)
  indexed_at_set : Bool
deriving DecidableEq

/-- The effectful collaborators of one `ingest_folder` run.  `.error`
values model exceptions: one escaping `list_files` reaches the outer
`except` handler; one raised inside the fast-path `try` is caught and
falls through to the RAG path; `ragException` models an exception in the
RAG path (processing or vector-store upsert) escaping to the outer
handler.  Per-file download failures are already `None` contents
(`download_files_parallel` never raises). -/
structure IngestEnv where
  listResult : Except String (List DriveFile)
  download : DriveFile → Option Content
  uploadOracle : Except String (DriveFile → Option String)
  producesDocs : DriveFile → Bool
  ragException : Option String

/-- `success_rate = len(successful_uploads) / total_attempted if
total_attempted > 0 else 0`, in exact rational arithmetic (the float
comparison against 0.5 is exact at these magnitudes). -/
def success_rate (succ total : Nat) : ℚ :=
  if total > 0 then (succ : ℚ) / (total : ℚ) else 0

/-- `ingest_folder`, branch for branch: empty listing commits READY with
`file_count = 0`; a fast-path attempt is accepted iff
`success_rate ≥ 0.5 and successful_uploads`; otherwise the RAG path runs
(or the outer handler commits FAILED). -/
def ingest_folder (env : IngestEnv) : FolderRecord :=
  match env.listResult with
  | .error _ =>
    { status := .FAILED, index_mode := none, file_count := 0,
      gemini_files := none, indexed_at_set := false }
  | .ok files =>
    if files.isEmpty then
      { status := .READY, index_mode := none, file_count := 0,
        gemini_files := none, indexed_at_set := true }
    else
      let use_fast_path := should_use_fast_path files
      let downloaded := files.map (fun f => (f, env.download f))
      let fastOutcome : Option FolderRecord :=
        if use_fast_path then
          match env.uploadOracle with
          | .error _ => none
          | .ok upload =>
            let gemini_files := upload_files_to_gemini upload downloaded
            let successful_uploads := gemini_files.filter (fun g => g.gemini_uri.isSome)
            let total_attempted := gemini_files.length
            let rate := success_rate successful_uploads.length total_attempted
            if rate ≥ 1/2 ∧ ¬ successful_uploads.isEmpty then
              some { status := .READY, index_mode := some .gemini_files,
                     file_count := successful_uploads.length,
                     gemini_files := some successful_uploads,
                     indexed_at_set := true }
            else
              none
        else
          none
      match fastOutcome with
      | some result => result
      | none =>
        match env.ragException with
        | some _ =>
          { status := .FAILED, index_mode := none, file_count := 0,
            gemini_files := none, indexed_at_set := false }
        | none =>
          let indexed_count :=
            (downloaded.filter (fun fc => fc.2.isSome && env.producesDocs fc.1)).length
          { status := .READY, index_mode := some .chroma,
            file_count := indexed_count, gemini_files := none,
            indexed_at_set := true }

/-- The list of upload-result dicts a whole-folder fast-path attempt
produces: one per successfully downloaded file, in listing order. -/
def attemptedUploads (env : IngestEnv) (upload : DriveFile → Option String)
    (files : List DriveFile) : List GeminiFileInfo :=
  upload_files_to_gemini upload (files.map (fun f => (f, env.download f)))

/-- The acceptance condition of the whole-folder fast path:
`success_rate >= 0.5 and successful_uploads`. -/
def fastAccepted (gfiles : List GeminiFileInfo) : Prop :=
  success_rate (gfiles.filter (fun g => g.gemini_uri.isSome)).length gfiles.length ≥ 1/2 ∧
    (gfiles.filter (fun g => g.gemini_uri.isSome)) ≠ []

lemma success_rate_ge_half_iff (succ total : Nat) :
    success_rate succ total ≥ 1/2 ↔ (0 < total ∧ total ≤ 2 * succ) := by
  unfold success_rate
  by_cases h : total > 0
  · rw [if_pos h]
    have ht : (0:ℚ) < (total:ℚ) := by exact_mod_cast h
    rw [ge_iff_le, div_le_div_iff₀ (by norm_num) ht]
    constructor
    · intro hle
      refine ⟨h, ?_⟩
      have h2 : (total:ℚ) ≤ 2 * (succ:ℚ) := by linarith
      exact_mod_cast h2
    · rintro ⟨-, hle⟩
      have h2 : (total:ℚ) ≤ 2 * (succ:ℚ) := by exact_mod_cast hle
      linarith
  · rw [if_neg h]
    constructor
    · intro hle
      norm_num at hle
    · rintro ⟨h0, -⟩
      exact absurd h0 h

/-- Rational-free characterization of the acceptance test, used to
evaluate it on concrete runs. -/
lemma fastAccepted_iff_nat (gfiles : List GeminiFileInfo) :
    fastAccepted gfiles ↔
      (0 < gfiles.length ∧
       gfiles.length ≤ 2 * (gfiles.filter (fun g => g.gemini_uri.isSome)).length ∧
       (gfiles.filter (fun g => g.gemini_uri.isSome)) ≠ []) := by
  unfold fastAccepted
  rw [success_rate_ge_half_iff]
  tauto

/-- **C3.** Amended: when folder ingestion finds zero listable files the
folder transitions to READY with `file_count = 0` (the code logs a
warning and commits READY, it does not fail); when an unhandled
exception escapes the pipeline (here: listing raises) the folder
transitions to FAILED.  The claim's "zero listable files → FAILED" is
refuted by `ingest_zero_files_counterexample`. -/
theorem ingest_empty_and_exception_status :
    (∀ env : IngestEnv, env.listResult = Except.ok [] →
      (ingest_folder env).status = FolderStatus.READY ∧
      (ingest_folder env).file_count = 0) ∧
    (∀ (env : IngestEnv) (e : String), env.listResult = Except.error e →
      (ingest_folder env).status = FolderStatus.FAILED) := by
  constructor
  · intro env h
    unfold ingest_folder
    rw [h]
    exact ⟨rfl, rfl⟩
  · intro env e h
    unfold ingest_folder
    rw [h]

/-- An environment whose folder listing succeeds but is empty. -/
def emptyListingEnv : IngestEnv :=
  { listResult := Except.ok [], download := fun _ => none,
    uploadOracle := Except.ok (fun _ => none),
    producesDocs := fun _ => false, ragException := none }

/-- An environment whose folder listing raises. -/
def failingListingEnv : IngestEnv :=
  { emptyListingEnv with listResult := Except.error "listing failed" }

/-- **C3** counterexample: on an empty listing the folder status becomes
READY, which is not FAILED as the claim asserts. -/
theorem ingest_zero_files_counterexample :
    (ingest_folder emptyListingEnv).status = FolderStatus.READY ∧
    FolderStatus.READY ≠ FolderStatus.FAILED :=
  ⟨rfl, by decide⟩

/-- **C3** witness: the amended statement instantiated on the two
concrete environments. -/
theorem ingest_status_witness :
    (ingest_folder emptyListingEnv).status = FolderStatus.READY ∧
    (ingest_folder emptyListingEnv).file_count = 0 ∧
    (ingest_folder failingListingEnv).status = FolderStatus.FAILED :=
  ⟨(ingest_empty_and_exception_status.1 emptyListingEnv rfl).1,
   (ingest_empty_and_exception_status.1 emptyListingEnv rfl).2,
   ingest_empty_and_exception_status.2 failingListingEnv "listing failed" rfl⟩

/-- **C4.** When the fast path is attempted for a non-empty folder (the
selector chose it and the upload batch did not raise), the run commits
index mode `gemini_files` iff the fraction of upload results with a
non-null handle is ≥ 1/2 and at least one upload succeeded; acceptance
commits READY with `file_count` the number of successful uploads, and
rejection discards all fast-path state (no `gemini_files` on the
folder and the index mode is never `gemini_files`). -/
theorem fast_path_success_ratio_policy (env : IngestEnv) (files : List DriveFile)
    (upload : DriveFile → Option String)
    (hlist : env.listResult = Except.ok files) (hne : files ≠ [])
    (hfast : should_use_fast_path files = true)
    (hup : env.uploadOracle = Except.ok upload) :
    ((ingest_folder env).index_mode = some IndexMode.gemini_files ↔
      fastAccepted (attemptedUploads env upload files)) ∧
    (fastAccepted (attemptedUploads env upload files) →
      (ingest_folder env).status = FolderStatus.READY ∧
      (ingest_folder env).file_count =
        ((attemptedUploads env upload files).filter (fun g => g.gemini_uri.isSome)).length) ∧
    (¬ fastAccepted (attemptedUploads env upload files) →
      (ingest_folder env).gemini_files = none ∧
      (ingest_folder env).index_mode ≠ some IndexMode.gemini_files) := by
  have hempty : files.isEmpty = false := by
    cases files with
    | nil => exact absurd rfl hne
    | cons a l => rfl
  have hred : ingest_folder env =
      (let gfiles := attemptedUploads env upload files
       let successful := gfiles.filter (fun g => g.gemini_uri.isSome)
       if success_rate successful.length gfiles.length ≥ 1/2 ∧ ¬ successful.isEmpty then
         { status := .READY, index_mode := some .gemini_files,
           file_count := successful.length,
           gemini_files := some successful, indexed_at_set := true }
       else
         match env.ragException with
         | some _ =>
           { status := .FAILED, index_mode := none, file_count := 0,
             gemini_files := none, indexed_at_set := false }
         | none =>
           { status := .READY, index_mode := some .chroma,
             file_count := ((files.map (fun f => (f, env.download f))).filter
               (fun fc => fc.2.isSome && env.producesDocs fc.1)).length,
             gemini_files := none, indexed_at_set := true }) := by
    unfold ingest_folder attemptedUploads
    rw [hlist, hup]
    simp only [hempty, Bool.false_eq_true, if_false, hfast, if_true]
    by_cases hacc :
        success_rate
            ((upload_files_to_gemini upload (files.map (fun f => (f, env.download f)))).filter
              (fun g => g.gemini_uri.isSome)).length
            (upload_files_to_gemini upload (files.map (fun f => (f, env.download f)))).length ≥ 1/2 ∧
          ¬ ((upload_files_to_gemini upload (files.map (fun f => (f, env.download f)))).filter
              (fun g => g.gemini_uri.isSome)).isEmpty
    · rw [if_pos hacc, if_pos hacc]
    · rw [if_neg hacc, if_neg hacc]
  have haccIff : (success_rate
        ((attemptedUploads env upload files).filter (fun g => g.gemini_uri.isSome)).length
        (attemptedUploads env upload files).length ≥ 1/2 ∧
      ¬ ((attemptedUploads env upload files).filter (fun g => g.gemini_uri.isSome)).isEmpty) ↔
      fastAccepted (attemptedUploads env upload files) := by
    unfold fastAccepted
    constructor
    · rintro ⟨h1, h2⟩
      exact ⟨h1, by simpa [List.isEmpty_iff] using h2⟩
    · rintro ⟨h1, h2⟩
      exact ⟨h1, by simpa [List.isEmpty_iff] using h2⟩
  rw [hred]
  by_cases hacc : success_rate
        ((attemptedUploads env upload files).filter (fun g => g.gemini_uri.isSome)).length
        (attemptedUploads env upload files).length ≥ 1/2 ∧
      ¬ ((attemptedUploads env upload files).filter (fun g => g.gemini_uri.isSome)).isEmpty
  · simp only [if_pos hacc]
    refine ⟨?_, ?_, ?_⟩
    · constructor
      · intro _
        exact haccIff.mp hacc
      · intro _
        trivial
    · intro _
      exact ⟨by trivial, by trivial⟩
    · intro hno
      exact absurd (haccIff.mp hacc) hno
  · simp only [if_neg hacc]
    have hnoAcc : ¬ fastAccepted (attemptedUploads env upload files) := fun h =>
      hacc (haccIff.mpr h)
    cases hrag : env.ragException with
    | none =>
      refine ⟨?_, fun h => absurd h hnoAcc, fun _ => ⟨by trivial, ?_⟩⟩
      · constructor
        · intro h
          exact absurd h (by simp)
        · intro h
          exact absurd h hnoAcc
      · simp
    | some e =>
      refine ⟨?_, fun h => absurd h hnoAcc, fun _ => ⟨by trivial, ?_⟩⟩
      · constructor
        · intro h
          exact absurd h (by simp)
        · intro h
          exact absurd h hnoAcc
      · simp

/-- A tiny plain-text file for the ratio scenarios. -/
def mkPlainFile (n : String) : DriveFile :=
  { id := n, name := n, path := n, mimeType := "text/plain", size := SizeField.int 1 }

def fiveFiles : List DriveFile :=
  [mkPlainFile "a", mkPlainFile "b", mkPlainFile "c", mkPlainFile "d", mkPlainFile "e"]

def fourFiles : List DriveFile :=
  [mkPlainFile "a", mkPlainFile "b", mkPlainFile "c", mkPlainFile "d"]

/-- An ingestion environment where every download succeeds and the
upload batch returns without raising, with the given per-file outcome. -/
def ratioEnv (files : List DriveFile) (up : DriveFile → Option String) : IngestEnv :=
  { listResult := Except.ok files, download := fun _ => some [],
    uploadOracle := Except.ok up, producesDocs := fun _ => true,
    ragException := none }

def uploadNone : DriveFile → Option String := fun _ => none

def uploadAll : DriveFile → Option String := fun f => some ("uri-" ++ f.id)

def uploadFirstTwo : DriveFile → Option String := fun f =>
  if f.id = "a" ∨ f.id = "b" then some ("uri-" ++ f.id) else none

def uploadFirstThree : DriveFile → Option String := fun f =>
  if f.id = "a" ∨ f.id = "b" ∨ f.id = "c" then some ("uri-" ++ f.id) else none

/-- **C4** witness: the acceptance policy instantiated at upload success
ratios 0% (0 of 5), 40% (2 of 5), 50% (2 of 4), 60% (3 of 5) and
100% (5 of 5): the first two fall back, the last three are accepted, and
the accepted 60% run commits READY. -/
theorem fast_path_success_ratio_witness :
    (ingest_folder (ratioEnv fiveFiles uploadNone)).index_mode ≠ some IndexMode.gemini_files ∧
    (ingest_folder (ratioEnv fiveFiles uploadFirstTwo)).index_mode ≠ some IndexMode.gemini_files ∧
    (ingest_folder (ratioEnv fourFiles uploadFirstTwo)).index_mode = some IndexMode.gemini_files ∧
    (ingest_folder (ratioEnv fiveFiles uploadFirstThree)).index_mode = some IndexMode.gemini_files ∧
    (ingest_folder (ratioEnv fiveFiles uploadAll)).index_mode = some IndexMode.gemini_files ∧
    (ingest_folder (ratioEnv fiveFiles uploadFirstThree)).status = FolderStatus.READY := by
  refine ⟨?_, ?_, ?_, ?_, ?_, ?_⟩
  · exact ((fast_path_success_ratio_policy (ratioEnv fiveFiles uploadNone) fiveFiles
      uploadNone rfl (by decide) (by decide) rfl).2.2
      (fun hacc => absurd ((fastAccepted_iff_nat _).mp hacc) (by decide))).2
  · exact ((fast_path_success_ratio_policy (ratioEnv fiveFiles uploadFirstTwo) fiveFiles
      uploadFirstTwo rfl (by decide) (by decide) rfl).2.2
      (fun hacc => absurd ((fastAccepted_iff_nat _).mp hacc) (by decide))).2
  · exact (fast_path_success_ratio_policy (ratioEnv fourFiles uploadFirstTwo) fourFiles
      uploadFirstTwo rfl (by decide) (by decide) rfl).1.mpr
      ((fastAccepted_iff_nat _).mpr (by decide))
  · exact (fast_path_success_ratio_policy (ratioEnv fiveFiles uploadFirstThree) fiveFiles
      uploadFirstThree rfl (by decide) (by decide) rfl).1.mpr
      ((fastAccepted_iff_nat _).mpr (by decide))
  · exact (fast_path_success_ratio_policy (ratioEnv fiveFiles uploadAll) fiveFiles
      uploadAll rfl (by decide) (by decide) rfl).1.mpr
      ((fastAccepted_iff_nat _).mpr (by decide))
  · exact ((fast_path_success_ratio_policy (ratioEnv fiveFiles uploadFirstThree) fiveFiles
      uploadFirstThree rfl (by decide) (by decide) rfl).2.1
      ((fastAccepted_iff_nat _).mpr (by decide))).1

/-! ## Vector store (`vector_store.py`)

The Chroma collection (an external collaborator) is modelled as an
association list of `(id, document, metadata)` records with
replace-or-insert `upsert` and lookup-by-id `get`.  Python's
`json.dumps`/`json.loads` (also external; `loads(dumps(v)) == v` for
JSON-safe `v`) are modelled at the level of a JSON value tree: the stored
metadata field carries the encoded tree, and decoding reads it back. -/

def MANIFEST_PREFIX : String := "_manifest_"

/-- A JSON value. -/
inductive Json
  | null
  | bool (b : Bool)
  | num (n : Int)
  | str (s : String)
  | arr (items : List Json)
  | obj (fields : List (String × Json))

/-- The metadata fields of a Chroma record that this codebase reads. -/
structure ChromaMeta where
  type : Option String := none
  manifest_json : Option Json := none
  file_name : Option String := none

/-- One file descriptor of a stored manifest (`id`, `name`, `path`,
`mime_type`, `size`); the size is whatever JSON value the pipeline put
there (Drive returns strings, local fallbacks use ints). -/
structure ManifestFile where
  id : String
  name : String
  path : String
  mime_type : String
  size : Json

def manifestFileToJson (f : ManifestFile) : Json :=
  Json.obj [("id", Json.str f.id), ("name", Json.str f.name),
            ("path", Json.str f.path), ("mime_type", Json.str f.mime_type),
            ("size", f.size)]

def jsonLookup (fields : List (String × Json)) (k : String) : Option Json :=
  (fields.find? (fun kv => kv.1 = k)).map (fun kv => kv.2)

def manifestFileOfJson : Json → Option ManifestFile
  | Json.obj fields =>
    match jsonLookup fields "id", jsonLookup fields "name", jsonLookup fields "path",
        jsonLookup fields "mime_type", jsonLookup fields "size" with
    | some (Json.str i), some (Json.str n), some (Json.str p),
        some (Json.str m), some s =>
      some { id := i, name := n, path := p, mime_type := m, size := s }
    | _, _, _, _, _ => none
  | _ => none

def manifestListOfJson : List Json → Option (List ManifestFile)
  | [] => some []
  | j :: rest =>
    match manifestFileOfJson j, manifestListOfJson rest with
    | some f, some fs => some (f :: fs)
    | _, _ => none

def manifestOfJson : Json → Option (List ManifestFile)
  | Json.arr items => manifestListOfJson items
  | _ => none

/-- A Chroma collection: `(id, document, metadata)` records. -/
abbrev Collection := List (String × String × ChromaMeta)

/-- Chroma `upsert` on a single record: replace the record with this id,
or append it. -/
def upsert (col : Collection) (id doc : String) (meta : ChromaMeta) : Collection :=
  if col.any (fun e => e.1 = id) then
    col.map (fun e => if e.1 = id then (id, doc, meta) else e)
  else
    col ++ [(id, doc, meta)]

/-- Chroma `get(ids=[id])` on a single id. -/
def collection_get (col : Collection) (id : String) : Option (String × ChromaMeta) :=
  (col.find? (fun e => e.1 = id)).map (fun e => e.2)

/-- The human-readable summary document of the manifest record:
`"This folder contains {n} files: "` plus the first 50 names, plus
`" and {n−50} more files."` when more than 50. -/
def manifest_summary (files : List ManifestFile) : String :=
  let base := "This folder contains " ++ toString files.length ++ " files: " ++
    String.intercalate ", " ((files.take 50).map (fun f => f.name))
  if files.length > 50 then
    base ++ " and " ++ toString (files.length - 50) ++ " more files."
  else
    base

/-- `store_file_manifest`: upsert the single manifest record, whose
metadata carries the full JSON-encoded file list and whose document is
the (possibly truncated) summary. -/
def store_file_manifest (col : Collection) (folder_id : String)
    (files : List ManifestFile) : Collection :=
  upsert col (MANIFEST_PREFIX ++ folder_id) (manifest_summary files)
    { type := some "manifest",
      manifest_json := some (Json.arr (files.map manifestFileToJson)),
      file_name := none }

/-- `get_file_manifest`: fetch the manifest record by its reserved id and
decode the JSON payload; any miss yields `[]`. -/
def get_file_manifest (col : Collection) (folder_id : String) : List ManifestFile :=
  match collection_get col (MANIFEST_PREFIX ++ folder_id) with
  | some (_, meta) =>
    match meta.manifest_json with
    | some j => (manifestOfJson j).getD []
    | none => []
  | none => []

lemma manifestFileOfJson_toJson (f : ManifestFile) :
    manifestFileOfJson (manifestFileToJson f) = some f := rfl

lemma manifestListOfJson_encode (files : List ManifestFile) :
    manifestListOfJson (files.map manifestFileToJson) = some files := by
  induction files with
  | nil => rfl
  | cons f fs ih =>
    simp only [List.map_cons, manifestListOfJson, manifestFileOfJson_toJson, ih]

lemma find?_map_replace (rest : List (String × String × ChromaMeta))
    (id doc : String) (meta : ChromaMeta)
    (h : rest.any (fun e => e.1 = id) = true) :
    (rest.map (fun e => if e.1 = id then (id, doc, meta) else e)).find?
        (fun e => e.1 = id) = some (id, doc, meta) := by
  induction rest with
  | nil => simp at h
  | cons e rest ih =>
    by_cases he : e.1 = id
    · simp only [List.map_cons, if_pos he]
      rw [List.find?_cons_of_pos _ (by simp)]
    · simp only [List.map_cons, if_neg he]
      rw [List.find?_cons_of_neg _ (by simp [he])]
      apply ih
      simpa [he] using h

lemma find?_append_not_found (rest : List (String × String × ChromaMeta))
    (id doc : String) (meta : ChromaMeta)
    (h : rest.any (fun e => e.1 = id) = false) :
    (rest ++ [(id, doc, meta)]).find? (fun e => e.1 = id) = some (id, doc, meta) := by
  induction rest with
  | nil =>
    simp only [List.nil_append]
    rw [List.find?_cons_of_pos _ (by simp)]
  | cons e rest ih =>
    have he : ¬ (e.1 = id) := by
      intro hh
      simp [hh] at h
    simp only [List.cons_append]
    rw [List.find?_cons_of_neg _ (by simp [he])]
    apply ih
    simpa [he] using h

lemma collection_get_upsert (col : Collection) (id doc : String) (meta : ChromaMeta) :
    collection_get (upsert col id doc meta) id = some (doc, meta) := by
  unfold upsert collection_get
  by_cases h : col.any (fun e => e.1 = id) = true
  · rw [if_pos h, find?_map_replace col id doc meta h]
    rfl
  · rw [if_neg h, find?_append_not_found col id doc meta (Bool.eq_false_iff.mpr h)]
    rfl

/-- **C6.** Storing a manifest and reading it back on the same
`(user, folder)` collection returns a file list equal by content to the
stored one, for every non-empty descriptor list (in particular lists of
more than 50 items: the 50-name truncation lives only in the summary
document, while the metadata payload encodes the full list). -/
theorem manifest_round_trip (col : Collection) (folder_id : String)
    (files : List ManifestFile) (_hne : files ≠ []) :
    get_file_manifest (store_file_manifest col folder_id files) folder_id = files := by
  unfold get_file_manifest store_file_manifest
  rw [collection_get_upsert]
  simp only [manifestOfJson, manifestListOfJson_encode, Option.getD_some]

/-- 51 distinct file descriptors. -/
def manyFiles : List ManifestFile :=
  (List.range 51).map (fun k =>
    { id := toString k, name := "f" ++ toString k, path := "f" ++ toString k,
      mime_type := "text/plain", size := Json.num (k : Int) })

lemma manyFiles_length : manyFiles.length = 51 := by
  unfold manyFiles
  rw [List.length_map]
  exact List.length_range 51

lemma manyFiles_ne_nil : manyFiles ≠ [] := by
  intro h
  have hlen := congrArg List.length h
  rw [manyFiles_length] at hlen
  simp at hlen

/-- **C6** witness: the round trip on a concrete 51-element list. -/
theorem manifest_round_trip_witness :
    manyFiles ≠ [] ∧ manyFiles.length = 51 ∧
    get_file_manifest (store_file_manifest [] "fold" manyFiles) "fold" = manyFiles :=
  ⟨manyFiles_ne_nil, manyFiles_length,
   manifest_round_trip [] "fold" manyFiles manyFiles_ne_nil⟩

/-- One hit of a Chroma `query` result. -/
structure QueryHit where
  document : String
  metadata : ChromaMeta
  distance : ℚ

/-- `search_documents`: the metadata-filtered query result when that
query succeeds, else the unfiltered fallback query result (`except`
branch); then the result loop, which skips any hit whose metadata type
is `"manifest"`. -/
def search_documents (filteredQuery : Except String (List QueryHit))
    (fallbackQuery : List QueryHit) : List QueryHit :=
  let results :=
    match filteredQuery with
    | Except.ok r => r
    | Except.error _ => fallbackQuery
  results.filter (fun r => !(r.metadata.type == some "manifest"))

/-- **C5.** No hit returned by `search_documents` is the manifest record:
every returned hit has metadata type ≠ `"manifest"`, whichever of the
filtered query or the unfiltered fallback produced the raw results. -/
theorem search_never_returns_manifest (filteredQuery : Except String (List QueryHit))
    (fallbackQuery : List QueryHit) :
    (search_documents filteredQuery fallbackQuery).all
      (fun r => !(r.metadata.type == some "manifest")) = true := by
  unfold search_documents
  cases filteredQuery with
  | ok r =>
    apply List.all_eq_true.mpr
    intro x hx
    exact (List.mem_filter.mp hx).2
  | error e =>
    apply List.all_eq_true.mpr
    intro x hx
    exact (List.mem_filter.mp hx).2

/-! ## RAG agent loop (`hybrid_agent.py`, `HybridAgent._chat_chroma_rag`)

The chat model, the best-effort tool-call parser (`_parse_tool_call`,
regex plus `json.loads`) and the tool executor (`_execute_tool`, which
hits the vector store) are effectful collaborators, modelled as the
oracle below; the loop body, the 5-iteration bound, the message appends
and the citation accumulation are translated from the source. -/

/-- One conversation entry (`{"role": ..., "parts": [...]}`). -/
structure AgentMessage where
  role : String
  parts : String
deriving DecidableEq

/-- One entry of a `search_documents` tool result. -/
structure ToolResultEntry where
  file_name : String
  file_id : String
  file_path : String
  mime_type : String
  chunk_index : Nat
  page_number : Option Nat
deriving DecidableEq

/-- A tool result: the `"results"` list when present (only
`search_documents` produces one), and its `json.dumps` serialization as
sent back to the model. -/
structure ToolResult where
  results : Option (List ToolResultEntry)
  serialized : String
deriving DecidableEq

structure Citation where
  file_name : String
  file_id : String
  drive_file_id : String
  chunk_index : Nat
  page_number : Option Nat
  mime_type : String
deriving DecidableEq

structure AgentAnswer where
  content : String
  citations : Option (List Citation)
deriving DecidableEq

/-- The model/parser/executor collaborators of one RAG chat:
`generate` is `chat.send_message(...).text` on the accumulated
conversation, `parseToolCall` is `_parse_tool_call` (the matched JSON
text, if any), `execTool` is `_execute_tool`. -/
structure RagOracle where
  generate : List AgentMessage → String
  parseToolCall : String → Option String
  execTool : String → ToolResult

/-- The prompt text is irrelevant to every claim; it is kept opaque. -/
def RAG_SYSTEM_PROMPT : String := "RAG_SYSTEM_PROMPT"

/-- The fixed apology returned when the iteration bound is exhausted
(39 is the ASCII apostrophe). -/
def APOLOGY_TEXT : String :=
  "I apologize, but I wasn" ++ Char.toString (Char.ofNat 39) ++
    "t able to find the relevant information after several attempts."

def max_iterations : Nat := 5

def citationOfEntry (r : ToolResultEntry) : Citation :=
  { file_name := r.file_name, file_id := r.file_id, drive_file_id := r.file_id,
    chunk_index := r.chunk_index, page_number := r.page_number,
    mime_type := r.mime_type }

/-- Citation accumulation over one tool result: each `"results"` entry
is appended unless a citation with the same file name is already
present. -/
def accumulateCitations (all_citations : List Citation) (tr : ToolResult) :
    List Citation :=
  match tr.results with
  | none => all_citations
  | some rs =>
    rs.foldl (fun acc r =>
      if acc.any (fun c => c.file_name = (citationOfEntry r).file_name) then
        acc
      else
        acc ++ [citationOfEntry r]) all_citations

/-- The `for _ in range(max_iterations)` loop of `_chat_chroma_rag`,
with the remaining iteration count explicit; returns the answer and the
number of model calls made. -/
def _chat_chroma_rag_loop (o : RagOracle) :
    Nat → List AgentMessage → List Citation → AgentAnswer × Nat
  | 0, _, all_citations =>
    ({ content := APOLOGY_TEXT,
       citations := if all_citations.isEmpty then none else some all_citations }, 0)
  | n + 1, messages, all_citations =>
    let response_text := o.generate messages
    match o.parseToolCall response_text with
    | some tool_call =>
      let tool_result := o.execTool tool_call
      let all_citations' := accumulateCitations all_citations tool_result
      let messages' := messages ++
        [{ role := "model", parts := response_text },
         { role := "user", parts := "Tool result: " ++ tool_result.serialized }]
      let rest := _chat_chroma_rag_loop o n messages' all_citations'
      (rest.1, rest.2 + 1)
    | none =>
      ({ content := response_text,
         citations := if all_citations.isEmpty then none else some all_citations }, 1)

/-- The initial conversation: system prompt plus the user message, then
the normalized history. -/
def initialMessages (message : String) (history : List AgentMessage) :
    List AgentMessage :=
  { role := "user", parts := RAG_SYSTEM_PROMPT ++ "\n\nUser: " ++ message } ::
    history.map (fun m =>
      { role := if m.role = "user" then "user" else "model", parts := m.parts })

def _chat_chroma_rag (o : RagOracle) (message : String)
    (history : List AgentMessage) : AgentAnswer × Nat :=
  _chat_chroma_rag_loop o max_iterations (initialMessages message history) []

/-- The citations accumulated over a fuel-bounded all-tool-call run. -/
def ragLoopCitations (o : RagOracle) :
    Nat → List AgentMessage → List Citation → List Citation
  | 0, _, all_citations => all_citations
  | n + 1, messages, all_citations =>
    let response_text := o.generate messages
    match o.parseToolCall response_text with
    | some tool_call =>
      let tool_result := o.execTool tool_call
      ragLoopCitations o n
        (messages ++
          [{ role := "model", parts := response_text },
           { role := "user", parts := "Tool result: " ++ tool_result.serialized }])
        (accumulateCitations all_citations tool_result)
    | none => all_citations

lemma rag_loop_call_count_le (o : RagOracle) :
    ∀ (fuel : Nat) (messages : List AgentMessage) (all_citations : List Citation),
      (_chat_chroma_rag_loop o fuel messages all_citations).2 ≤ fuel := by
  intro fuel
  induction fuel with
  | zero =>
    intro messages all_citations
    exact Nat.le_refl 0
  | succ n ih =>
    intro messages all_citations
    simp only [_chat_chroma_rag_loop]
    cases o.parseToolCall (o.generate messages) with
    | some tc =>
      simp only
      exact Nat.succ_le_succ (ih _ _)
    | none =>
      simp only
      omega

lemma rag_loop_exhausts (o : RagOracle)
    (htool : ∀ ms : List AgentMessage, (o.parseToolCall (o.generate ms)).isSome = true) :
    ∀ (fuel : Nat) (messages : List AgentMessage) (all_citations : List Citation),
      _chat_chroma_rag_loop o fuel messages all_citations =
        ({ content := APOLOGY_TEXT,
           citations :=
             if (ragLoopCitations o fuel messages all_citations).isEmpty then none
             else some (ragLoopCitations o fuel messages all_citations) }, fuel) := by
  intro fuel
  induction fuel with
  | zero =>
    intro messages all_citations
    rfl
  | succ n ih =>
    intro messages all_citations
    obtain ⟨tc, htc⟩ := Option.isSome_iff_exists.mp (htool messages)
    simp only [_chat_chroma_rag_loop, ragLoopCitations, htc]
    rw [ih]

/-- **C7.** The RAG agent loop makes at most 5 model calls for every
model behaviour, and when the model emits a tool call on every response
the loop stops exactly at the bound and returns the fixed apology text
together with the citations accumulated along the run (rather than
raising or hanging). -/
theorem rag_loop_bounded_with_apology (o : RagOracle) (message : String)
    (history : List AgentMessage) :
    (_chat_chroma_rag o message history).2 ≤ max_iterations ∧
    ((∀ ms : List AgentMessage, (o.parseToolCall (o.generate ms)).isSome = true) →
      (_chat_chroma_rag o message history).1.content = APOLOGY_TEXT ∧
      (_chat_chroma_rag o message history).2 = max_iterations ∧
      (_chat_chroma_rag o message history).1.citations =
        (if (ragLoopCitations o max_iterations (initialMessages message history) []).isEmpty
         then none
         else some (ragLoopCitations o max_iterations (initialMessages message history) []))) := by
  constructor
  · exact rag_loop_call_count_le o max_iterations _ _
  · intro htool
    unfold _chat_chroma_rag
    rw [rag_loop_exhausts o htool max_iterations (initialMessages message history) []]
    exact ⟨rfl, rfl, rfl⟩

/-- A scripted model that emits a (self-quoting) tool call on every
response, whose tool results carry no `"results"` list. -/
def alwaysToolOracle : RagOracle :=
  { generate := fun _ => "call",
    parseToolCall := fun s => some s,
    execTool := fun _ => { results := none, serialized := "r" } }

/-- **C7** witness: the bound and the apology on the scripted
always-tool-call oracle. -/
theorem rag_loop_bounded_witness :
    (_chat_chroma_rag alwaysToolOracle "q" []).2 ≤ max_iterations ∧
    (_chat_chroma_rag alwaysToolOracle "q" []).1.content = APOLOGY_TEXT ∧
    (_chat_chroma_rag alwaysToolOracle "q" []).2 = max_iterations :=
  ⟨(rag_loop_bounded_with_apology alwaysToolOracle "q" []).1,
   ((rag_loop_bounded_with_apology alwaysToolOracle "q" []).2 (fun _ => rfl)).1,
   ((rag_loop_bounded_with_apology alwaysToolOracle "q" []).2 (fun _ => rfl)).2.1⟩

/-! ## Parallel downloader (`google_drive.py`,
`GoogleDriveService.download_files_parallel`)

Each input file spawns exactly one task; a per-file timeout or exception
is caught inside the task and produces a `None` content; `asyncio.gather`
returns one result per task in task order. -/

/-- The per-file outcome of `download_file` under `asyncio.wait_for`. -/
inductive DownloadOutcome
  | ok (content : Content)
  | timeout
  | failed (e : String)
deriving DecidableEq

/-- The content a finished task reports for an outcome. -/
def contentOfOutcome : DownloadOutcome → Option Content
  | DownloadOutcome.ok c => some c
  | DownloadOutcome.timeout => none
  | DownloadOutcome.failed _ => none

/-- `download_files_parallel`: one `(descriptor, content|None)` result
per input descriptor, in input order. -/
def download_files_parallel (outcome : DriveFile → DownloadOutcome)
    (files : List DriveFile) : List (DriveFile × Option Content) :=
  files.map (fun file =>
    match outcome file with
    | DownloadOutcome.ok content => (file, some content)
    | DownloadOutcome.timeout => (file, none)
    | DownloadOutcome.failed _ => (file, none))

/-- **C8.** The downloader returns exactly one result per input
descriptor — projecting the descriptors back out of the result list
yields the input list itself, so the results are a complete bijection
over the inputs — and each result's content is `some` bytes exactly on a
successful download, `none` on a timeout or an exception, without
affecting sibling results. -/
theorem download_parallel_complete (outcome : DriveFile → DownloadOutcome)
    (files : List DriveFile) :
    ((download_files_parallel outcome files).map Prod.fst = files) ∧
    (∀ p ∈ download_files_parallel outcome files,
      p.2 = contentOfOutcome (outcome p.1)) := by
  constructor
  · unfold download_files_parallel
    rw [List.map_map]
    have hpt : ∀ file : DriveFile,
        (Prod.fst ∘ fun file =>
          (match outcome file with
            | DownloadOutcome.ok content => (file, some content)
            | DownloadOutcome.timeout => (file, none)
            | DownloadOutcome.failed _ => (file, none))) file = file := by
      intro file
      simp only [Function.comp_apply]
      cases outcome file <;> rfl
    rw [List.map_congr_left (fun file _ => hpt file)]
    exact List.map_id files
  · intro p hp
    obtain ⟨file, _, hfp⟩ := List.mem_map.mp hp
    cases hout : outcome file <;>
      (rw [← hfp] ; simp only [hout] ; simp [contentOfOutcome, hout])

def dlFiles : List DriveFile :=
  [mkPlainFile "p", mkPlainFile "q", mkPlainFile "r"]

/-- Downloads: one success, one timeout, one exception. -/
def sampleOutcome : DriveFile → DownloadOutcome := fun f =>
  if f.id = "p" then DownloadOutcome.ok [1, 2]
  else if f.id = "q" then DownloadOutcome.timeout
  else DownloadOutcome.failed "boom"

/-- **C8** witness: on three concrete files (one ok, one timeout, one
failing) the result projects back to the input list and the timed-out
file carries `none`. -/
theorem download_parallel_witness :
    (download_files_parallel sampleOutcome dlFiles).map Prod.fst = dlFiles ∧
    (mkPlainFile "q", (none : Option Content)).2 =
      contentOfOutcome (sampleOutcome (mkPlainFile "q", (none : Option Content)).1) ∧
    sampleOutcome (mkPlainFile "q") = DownloadOutcome.timeout :=
  ⟨(download_parallel_complete sampleOutcome dlFiles).1,
   (download_parallel_complete sampleOutcome dlFiles).2
     (mkPlainFile "q", (none : Option Content)) (by decide),
   by decide⟩

end Talk2Folder
